import Mathlib

/-!
# Verification of the Snake game simulation core (`snake_pygame.py`)

Shallow embedding of the tick-based simulation of `SnakeGame`:
snake movement, food spawning and consumption, obstacle placement with its
BFS reachability pre-check, scoring, the speed curve, pause handling, and
the leaderboard qualification test.

Modelling conventions:
* Grid cells are `ℤ × ℤ`; the grid is `30 × 30` (`WINDOW_SIZE // grid_cell`).
* Python's `random` calls are modelled by an explicit stream of draws
  (`Rand`): a list of rationals for `random.random()` and a list of cells
  for the `random.randint(0, GRID_SIZE-1)` pairs (reduced mod 30 so that
  every drawn cell is in range, as `randint` guarantees).  An unbounded
  `while True` rejection loop is modelled by scanning the finite stream for
  the first acceptable cell; an exhausted stream makes the spawn a no-op
  (the Python loop would simply keep drawing — every terminating run of the
  program corresponds to a stream that contains an acceptable cell).
* Python floats for `speed` are modelled as exact rationals `ℚ`.
* `score`/`food_eaten` are `ℕ`; Python's `max(0, score - 1)` coincides with
  truncated natural subtraction.
* Feature flags are all `True` in the source (`FEATURES`), so the guarded
  branches are embedded unconditionally.
* Tuning constants are the `GAME_TUNING` defaults: grid 30, leaderboard 5,
  special chance 0.22, rotten ratio 0.35, min length 1, obstacles every 3
  foods, cap 40, speed base 4, step 0.3, max 15, moving-food chance 0.3.
-/

namespace Snake

/-- A grid cell `(x, y)`, integer coordinates. -/
abbrev Cell := ℤ × ℤ

/-- Grid dimension `GRID_SIZE = WINDOW_SIZE // grid_cell = 600 // 20 = 30`. -/
def gridSize : ℤ := 30

/-- The food kinds of the `FoodType` enum. -/
inductive FoodType where
  | normal
  | golden
  | rotten
deriving DecidableEq, Repr

/-- The `Food` class: position, kind, mobility flag (colour is derived
from the kind and purely visual, so it is omitted). -/
structure Food where
  pos : Cell
  type : FoodType
  isMoving : Bool
deriving DecidableEq, Repr

/-- Explicit stream of pseudo-random draws: `floats` feeds
`random.random()`, `cells` feeds the `(randint, randint)` position draws. -/
structure Rand where
  floats : List ℚ
  cells : List Cell
deriving DecidableEq, Repr

/-- Pop one `random.random()` draw.  An exhausted stream yields `1`
(a draw that triggers no probabilistic special case). -/
def nextFloat (r : Rand) : ℚ × Rand :=
  match r.floats with
  | [] => (1, r)
  | q :: qs => (q, { r with floats := qs })

/-- Reduce a drawn cell into the `randint(0, GRID_SIZE-1)` range. -/
def clampCell (c : Cell) : Cell := (c.1 % gridSize, c.2 % gridSize)

/-- Pop one position draw (`randint` pair); an exhausted stream yields
`(0, 0)`. -/
def nextCell (r : Rand) : Cell × Rand :=
  match r.cells with
  | [] => ((0, 0), r)
  | c :: cs => (clampCell c, { r with cells := cs })

/-- A `while True:` rejection-sampling loop over position draws: return the
first drawn cell accepted by `free` together with the remaining stream, or
`none` if the finite stream is exhausted first. -/
def pickFree (free : Cell → Bool) : List Cell → Option Cell × List Cell
  | [] => (none, [])
  | c :: cs =>
    let p := clampCell c
    if free p then (some p, cs) else pickFree free cs

/-- Direction vectors `DIRECTIONS.values()` in source order: UP, DOWN, LEFT, RIGHT. -/
def dirs : List Cell := [(0, -1), (0, 1), (-1, 0), (1, 0)]

/-- Bounds check of the bounded grid: `0 <= x < 30 and 0 <= y < 30`. -/
def inBounds (c : Cell) : Bool :=
  0 ≤ c.1 && c.1 < gridSize && 0 ≤ c.2 && c.2 < gridSize

/-- The session state of `SnakeGame` (simulation fields only; the purely
visual fields — trail surfaces, glow phases, tongue timers — are omitted,
and the explicit random stream is carried as a field). -/
structure Game where
  snake : List Cell
  direction : Cell
  nextDirection : Cell
  score : ℕ
  foodEaten : ℕ
  tickCount : ℕ
  gameOver : Bool
  paused : Bool
  speed : ℚ
  food : Option Food
  obstacles : List Cell
  concurrentFoods : List Food
  waitingForInitials : Bool
  playerInitials : String
  leaderboard : List ℕ
  rand : Rand
deriving DecidableEq, Repr

/-- The session phases named by the specification. -/
inductive Phase where
  | running
  | paused
  | gameOver
  | awaitingInitials
deriving DecidableEq, Repr

/-- The phase encoded by the `game_over` / `paused` /
`waiting_for_initials` flags of the source. -/
def Game.phase (g : Game) : Phase :=
  if g.gameOver then
    if g.waitingForInitials then .awaitingInitials else .gameOver
  else if g.paused then .paused
  else .running

/-- The emptiness test of every food-position rejection loop in the
source: `pos not in self.snake and pos not in self.obstacles and
(self.food is None or pos != self.food.pos)`.  Note that
`concurrent_foods` is not consulted. -/
def foodFreeAt (g : Game) (p : Cell) : Bool :=
  !(decide (p ∈ g.snake)) && !(decide (p ∈ g.obstacles)) &&
    (match g.food with
     | none => true
     | some f => decide (p ≠ f.pos))

/-- The mobility draw `FEATURES["moving_food"] and random.random() < 0.3`. -/
def drawMoving (r : Rand) : Bool × Rand :=
  let (q, r') := nextFloat r
  (decide (q < mkRat 3 10), r')

/-- The shared tail of `spawn_food` (and of the rotten spawn variant for
the primary food): rejection-sample a free cell, draw mobility, install
the new primary food.  On stream exhaustion the primary food is left
unchanged. -/
def spawnPrimary (g : Game) (t : FoodType) : Game :=
  match pickFree (foodFreeAt g) g.rand.cells with
  | (none, cs) => { g with rand := { g.rand with cells := cs } }
  | (some p, cs) =>
    let (mv, r') := drawMoving { g.rand with cells := cs }
    { g with food := some ⟨p, t, mv⟩, rand := r' }

/-- The shared "spawn one bonus food" block of
`_spawn_rotten_with_normal` and `_spawn_concurrent_food`:
rejection-sample a free cell, draw mobility, append a concurrent food of
kind `t`.  On stream exhaustion nothing is appended. -/
def appendConcurrent (g : Game) (t : FoodType) : Game :=
  match pickFree (foodFreeAt g) g.rand.cells with
  | (none, cs) => { g with rand := { g.rand with cells := cs } }
  | (some p, cs) =>
    let (mv, r') := drawMoving { g.rand with cells := cs }
    { g with concurrentFoods := g.concurrentFoods ++ [⟨p, t, mv⟩],
             rand := r' }

/-- Embedding of `SnakeGame._spawn_rotten_with_normal`: place a rotten primary food,
then append a concurrent Normal food at a second free cell (the second
rejection loop compares against the just-placed rotten food). -/
def spawnRottenWithNormal (g : Game) : Game :=
  match pickFree (foodFreeAt g) g.rand.cells with
  | (none, cs) => { g with rand := { g.rand with cells := cs } }
  | (some p, cs) =>
    let (mv, r') := drawMoving { g.rand with cells := cs }
    appendConcurrent { g with food := some ⟨p, .rotten, mv⟩, rand := r' } .normal

/-- Embedding of `SnakeGame.spawn_food`: roll the food kind
(`special_spawn_chance = 0.22`, `rotten_ratio_within_special = 0.35`),
then place the food; the Rotten outcome delegates to
`_spawn_rotten_with_normal`. -/
def spawnFood (g : Game) : Game :=
  let (r1, ra) := nextFloat g.rand
  if r1 < mkRat 22 100 then
    let (r2, rb) := nextFloat ra
    if r2 < mkRat 35 100 then
      spawnRottenWithNormal { g with rand := rb }
    else
      spawnPrimary { g with rand := rb } .golden
  else
    spawnPrimary { g with rand := ra } .normal

/-- Embedding of `SnakeGame._spawn_concurrent_food`: respawn the primary food via
`spawn_food`, then append a concurrent Golden food at a free cell. -/
def spawnConcurrentFood (g : Game) : Game :=
  appendConcurrent (spawnFood g) .golden

/-- The impassable cells of `_is_food_accessible`'s BFS: snake body,
committed obstacles, and the candidate new obstacle. -/
def blockedWith (g : Game) (newObs : Cell) (c : Cell) : Bool :=
  decide (c ∈ g.snake) || decide (c ∈ g.obstacles) || decide (c = newObs)

/-- One neighbour test of the BFS of `_is_food_accessible`: push the
neighbour `c + d` onto the queue (and mark it visited) when it is in
bounds, unvisited and unblocked. -/
def expandStep (blocked : Cell → Bool) (c : Cell)
    (qv : List Cell × List Cell) (d : Cell) : List Cell × List Cell :=
  let n : Cell := (c.1 + d.1, c.2 + d.2)
  if inBounds n && !(decide (n ∈ qv.2)) && !blocked n then
    (qv.1 ++ [n], qv.2 ++ [n])
  else qv

/-- One BFS expansion over the four cardinal directions, exactly as the
inner `for dx, dy in DIRECTIONS.values()` loop does. -/
def expand (blocked : Cell → Bool) (c : Cell)
    (qv : List Cell × List Cell) : List Cell × List Cell :=
  dirs.foldl (expandStep blocked c) qv

/-- The BFS `while queue:` loop of `_is_food_accessible`, with explicit
fuel (each iteration pops one cell; at most `30 * 30 + 1` cells are ever
enqueued, so any fuel beyond that is equivalent to the unbounded loop). -/
def bfs (blocked : Cell → Bool) (target : Cell) :
    ℕ → List Cell → List Cell → Bool
  | 0, _, _ => false
  | _ + 1, [], _ => false
  | fuel + 1, c :: queue, visited =>
    if c = target then true
    else
      let qv := expand blocked c (queue, visited)
      bfs blocked target fuel qv.1 qv.2

/-- Fuel that a 30×30 BFS can never exhaust. -/
def bfsFuel : ℕ := 10000

/-- Embedding of `SnakeGame._is_food_accessible`: trivially true with no food;
otherwise BFS from the snake head to the food position, avoiding snake,
obstacles and the candidate obstacle. -/
def foodAccessible (g : Game) (newObs : Cell) : Bool :=
  match g.food with
  | none => true
  | some f =>
    bfs (blockedWith g newObs) f.pos bfsFuel [g.snake.headI] [g.snake.headI]

/-- One attempt of the `for _ in range(50)` loop of `spawn_obstacle`:
draw a cell; commit it if it is empty and keeps the food accessible,
otherwise retry with the next draw. -/
def spawnObstacleLoop : Game → ℕ → Game
  | g, 0 => g
  | g, n + 1 =>
    let p := (nextCell g.rand).1
    let g' : Game := { g with rand := (nextCell g.rand).2 }
    if foodFreeAt g' p && foodAccessible g' p then
      { g' with obstacles := g'.obstacles ++ [p] }
    else
      spawnObstacleLoop g' n

/-- Embedding of `SnakeGame.spawn_obstacle`: no-op at the cap (`max_obstacles = 40`),
otherwise up to 50 placement attempts. -/
def spawnObstacle (g : Game) : Game :=
  if 40 ≤ g.obstacles.length then g
  else spawnObstacleLoop g 50

/-- The speed recomputation shared by `_eat_food` and
`_eat_concurrent_food` (with `speed_scales_with_eats` enabled):
`min(speed_max, speed_base + eaten*step + (eaten-10)*0.1 if eaten > 10)`. -/
def newSpeed (eaten : ℕ) : ℚ :=
  let inc : ℚ :=
    (eaten : ℚ) * mkRat 3 10 +
      (if 10 < eaten then ((eaten - 10 : ℕ) : ℚ) * mkRat 1 10 else 0)
  min 15 (4 + inc)

/-- Embedding of `SnakeGame._eat_concurrent_food`: score by kind, bump the eaten
counter, recompute speed, and attempt an obstacle spawn every third food. -/
def eatConcurrentFood (g : Game) (f : Food) : Game :=
  let g1 : Game :=
    match f.type with
    | .golden => { g with score := g.score + 3 }
    | .normal => { g with score := g.score + 1 }
    | .rotten => g
  let g2 : Game := { g1 with foodEaten := g1.foodEaten + 1 }
  let g3 : Game := { g2 with speed := newSpeed g2.foodEaten }
  if g3.foodEaten % 3 = 0 then spawnObstacle g3 else g3

/-- Embedding of `SnakeGame._eat_food`: Normal/Golden score, counter bump, speed
recomputation, food respawn and obstacle cadence; the Rotten branch
instead floors the score at 0, pops one tail segment (guarded by
`min_snake_len = 1`), spawns the recovery foods and returns early. -/
def eatFood (g : Game) : Game :=
  match g.food with
  | none => g
  | some f =>
    match f.type with
    | .rotten =>
      let g1 : Game := { g with score := g.score - 1 }
      let g2 : Game :=
        if 1 < g1.snake.length then { g1 with snake := g1.snake.dropLast }
        else g1
      spawnConcurrentFood g2
    | t =>
      let g1 : Game :=
        { g with score := g.score + (if t = .golden then 3 else 1) }
      let g2 : Game := { g1 with foodEaten := g1.foodEaten + 1 }
      let g3 : Game := { g2 with speed := newSpeed g2.foodEaten }
      let g4 := spawnFood g3
      if g4.foodEaten % 3 = 0 then spawnObstacle g4 else g4

/-- The `for i, concurrent_food in enumerate(self.concurrent_foods)` scan
of `move_snake`: the first food whose position equals the new head is
consumed (`_eat_concurrent_food`) and removed; the scan then breaks.
Returns the updated list, the updated game, and whether a food was eaten. -/
def eatLoop (g : Game) (nh : Cell) : List Food → List Food × Game × Bool
  | [] => ([], g, false)
  | f :: fs =>
    if f.pos = nh then (fs, eatConcurrentFood g f, true)
    else
      let r := eatLoop g nh fs
      (f :: r.1, r.2.1, r.2.2)

/-- The new head cell that `move_snake` will step to:
`snake[0] + next_direction` (the queued direction is committed first). -/
def newHead (g : Game) : Cell :=
  (g.snake.headI.1 + g.nextDirection.1, g.snake.headI.2 + g.nextDirection.2)

/-- The test `if self.food and new_head == self.food.pos:` — the primary-food hit
test of `move_snake`. -/
def mainHit (g : Game) (nh : Cell) : Bool :=
  match g.food with
  | some f => decide (nh = f.pos)
  | none => false

/-- The post-collision part of `move_snake`: prepend the new head,
consume the primary food when hit, then at most the first matching
concurrent food, and pop the tail iff no food was consumed. -/
def moveSnakeCore (g0 : Game) (nh : Cell) : Game :=
  let g1 : Game := { g0 with snake := nh :: g0.snake }
  let g2 : Game := if mainHit g1 nh then eatFood g1 else g1
  let r := eatLoop g2 nh g2.concurrentFoods
  let g3 : Game := { r.2.1 with concurrentFoods := r.1 }
  if mainHit g1 nh || r.2.2 then g3
  else { g3 with snake := g3.snake.dropLast }

/-- Embedding of `SnakeGame.move_snake`: the per-tick step — commit the queued
direction, compute the new head, run the three terminal checks (wall,
self, obstacle) in order; otherwise advance via `moveSnakeCore`. -/
def moveSnake (g : Game) : Game :=
  if g.gameOver || g.paused then g
  else
    let g0 : Game := { g with direction := g.nextDirection }
    let nh : Cell :=
      (g0.snake.headI.1 + g0.direction.1, g0.snake.headI.2 + g0.direction.2)
    if !inBounds nh then { g0 with gameOver := true }
    else if nh ∈ g0.snake then { g0 with gameOver := true }
    else if nh ∈ g0.obstacles then { g0 with gameOver := true }
    else moveSnakeCore g0 nh

/-- Tuning constant `GAME_TUNING["leaderboard_size"]`. -/
def leaderboardSize : ℕ := 5

/-- The minimum `min(entry["score"] for entry in self.leaderboard)` (defined as 0 on
the empty list; the source only evaluates it on a nonempty one). -/
def lbMin : List ℕ → ℕ
  | [] => 0
  | a :: as => as.foldl min a

/-- The leaderboard qualification test evaluated at game over (in both
`run` and `_draw_game_over`): fewer than `leaderboard_size` entries, or —
on a nonempty board — score strictly above the current minimum. -/
def lbQualifies (lb : List ℕ) (score : ℕ) : Bool :=
  if lb.length < leaderboardSize then true
  else if lb ≠ [] then decide (lbMin lb < score)
  else false

/-- Embedding of `SnakeGame._add_to_leaderboard`: append, sort by score descending,
keep the top `leaderboard_size` (initials are irrelevant to every claim
and omitted from the entries). -/
def addToLeaderboard (lb : List ℕ) (s : ℕ) : List ℕ :=
  ((lb ++ [s]).mergeSort (fun a b => b ≤ a)).take leaderboardSize

/-- Embedding of `SnakeGame.reset`: re-centre the snake, zero the counters, restore the
base speed, clear food/obstacles/concurrent foods, spawn the first food,
and clear the concurrent foods again (the source clears them a second
time *after* `spawn_food`, discarding a Rotten first-spawn's bonus food).
Leaderboard and the random stream survive the reset. -/
def resetGame (g : Game) : Game :=
  let base : Game :=
    { snake := [(gridSize / 2, gridSize / 2)]
      direction := (1, 0)
      nextDirection := (1, 0)
      score := 0
      foodEaten := 0
      tickCount := 0
      gameOver := false
      paused := false
      speed := 4
      food := none
      obstacles := []
      concurrentFoods := []
      waitingForInitials := false
      playerInitials := ""
      leaderboard := g.leaderboard
      rand := g.rand }
  let g1 := spawnFood base
  { g1 with concurrentFoods := [] }

/-- A fresh session (`__init__` calls `reset`): any persisted leaderboard,
any random stream. -/
def initGame (lb : List ℕ) (r : Rand) : Game :=
  resetGame
    { snake := [], direction := (1, 0), nextDirection := (1, 0), score := 0
      foodEaten := 0, tickCount := 0, gameOver := false, paused := false
      speed := 4, food := none, obstacles := [], concurrentFoods := []
      waitingForInitials := false, playerInitials := "", leaderboard := lb
      rand := r }

/-- The SPACE key of `handle_events`: toggles pause only under
`not self.game_over and not self.paused`; in every other state the
remaining branches of the event chain ignore SPACE (it is not an
alphabetic character, so the initials branch also does nothing). -/
def pressSpace (g : Game) : Game :=
  if !g.gameOver && !g.paused then { g with paused := !g.paused } else g

/-- The P key of `handle_events`: toggles pause under
`not self.game_over`; when the game is over and initials are awaited, the
fall-through initials branch appends the letter `P` instead. -/
def pressP (g : Game) : Game :=
  if !g.gameOver then { g with paused := !g.paused }
  else if g.waitingForInitials then
    if g.playerInitials.length < 3 then
      { g with playerInitials := g.playerInitials ++ "P" }
    else g
  else g

/-- The R key: restart when the game is over and no initials are awaited;
while initials are awaited the fall-through branch appends `R`. -/
def pressR (g : Game) : Game :=
  if g.gameOver && !g.waitingForInitials then resetGame g
  else if g.waitingForInitials then
    if g.playerInitials.length < 3 then
      { g with playerInitials := g.playerInitials ++ "R" }
    else g
  else g

/-- The L key: reset the leaderboard during gameplay. -/
def pressL (g : Game) : Game :=
  if !g.gameOver && !g.paused then { g with leaderboard := [] } else g

/-- The RETURN key while awaiting initials: record the score and reset. -/
def pressReturn (g : Game) : Game :=
  if g.waitingForInitials then
    resetGame
      { g with leaderboard := addToLeaderboard g.leaderboard g.score,
               waitingForInitials := false }
  else g

/-- The BACKSPACE key while awaiting initials: drop the last character. -/
def pressBackspace (g : Game) : Game :=
  if g.waitingForInitials then
    { g with playerInitials := g.playerInitials.dropRight 1 }
  else g

/-- An alphabetic key while awaiting initials: append its upper-case form
while fewer than three characters are present. -/
def pressLetter (g : Game) (c : Char) : Game :=
  if g.waitingForInitials then
    if c.isAlpha && g.playerInitials.length < 3 then
      { g with playerInitials := g.playerInitials.push c.toUpper }
    else g
  else g

/-- A direction key during gameplay: queue the direction unless it is the
exact reverse of the current one. -/
def pressDir (g : Game) (d : Cell) : Game :=
  if !g.gameOver && !g.paused && !g.waitingForInitials then
    if g.direction = (-d.1, -d.2) then g
    else { g with nextDirection := d }
  else g

/-- Embedding of `SnakeGame.update_food`: every sixth tick a mobile food moves to the
first free in-bounds neighbour in a shuffled direction order (`order`
stands for the output of `random.shuffle`). -/
def updateFood (g : Game) (order : List Cell) : Game :=
  match g.food with
  | none => g
  | some f =>
    if f.isMoving && g.tickCount % 6 = 0 then
      match order.find? (fun d =>
          let np : Cell := (f.pos.1 + d.1, f.pos.2 + d.2)
          inBounds np && !(decide (np ∈ g.snake)) &&
            !(decide (np ∈ g.obstacles))) with
      | some d => { g with food := some { f with pos := (f.pos.1 + d.1, f.pos.2 + d.2) } }
      | none => g
    else g

/-- The game-over arm of `run`'s loop: when the final score qualifies,
enter the initials prompt (`waiting_for_initials = True`). -/
def gameOverCheck (g : Game) : Game :=
  if g.gameOver && !g.waitingForInitials then
    if lbQualifies g.leaderboard g.score then
      { g with waitingForInitials := true }
    else g
  else g

/-- The tick-count increment of `run`'s running arm. -/
def bumpTick (g : Game) : Game := { g with tickCount := g.tickCount + 1 }

/-- Replenishing the random stream: models the inexhaustible system
`random` source (the session may receive fresh draws at any time). -/
def refillRand (g : Game) (r : Rand) : Game := { g with rand := r }

/-- One observable session transition: everything the `run` loop and the
event handler can do to the simulation state. -/
inductive Step : Game → Game → Prop
  | move (g : Game) : Step g (moveSnake g)
  | food (g : Game) (order : List Cell) : Step g (updateFood g order)
  | tick (g : Game) : Step g (bumpTick g)
  | space (g : Game) : Step g (pressSpace g)
  | pkey (g : Game) : Step g (pressP g)
  | rkey (g : Game) : Step g (pressR g)
  | lkey (g : Game) : Step g (pressL g)
  | ret (g : Game) : Step g (pressReturn g)
  | back (g : Game) : Step g (pressBackspace g)
  | letter (g : Game) (c : Char) : Step g (pressLetter g c)
  | dir (g : Game) (d : Cell) : Step g (pressDir g d)
  | qualify (g : Game) : Step g (gameOverCheck g)
  | refill (g : Game) (r : Rand) : Step g (refillRand g r)

/-- The session states reachable from a fresh session. -/
inductive Reachable : Game → Prop
  | init (lb : List ℕ) (r : Rand) : Reachable (initGame lb r)
  | step {g g' : Game} : Reachable g → Step g g' → Reachable g'

/-- One hop of a 4-connected path that stays in bounds and avoids the
`blocked` cells (the path's start is exempt, matching a path that starts
on the snake's own head). -/
def StepOK (blocked : Cell → Bool) (a b : Cell) : Prop :=
  (∃ d ∈ dirs, b = (a.1 + d.1, a.2 + d.2)) ∧
    inBounds b = true ∧ blocked b = false

/-- Four-connected reachability avoiding `blocked`. -/
def Reach (blocked : Cell → Bool) : Cell → Cell → Prop :=
  Relation.ReflTransGen (StepOK blocked)

/-! ## Helper lemmas about the spawn operations -/

/-- A cell accepted by a rejection-sampling loop satisfies the loop's
emptiness test. -/
theorem pickFree_sound (free : Cell → Bool) :
    ∀ (l : List Cell) (p : Cell),
      (pickFree free l).1 = some p → free p = true := by
  intro l
  induction l with
  | nil => intro p h; simp [pickFree] at h
  | cons c cs ih =>
    intro p h
    unfold pickFree at h
    by_cases hc : free (clampCell c) = true
    · simp only [hc, if_true] at h
      cases h
      exact hc
    · simp only [Bool.not_eq_true] at hc
      simp only [hc, Bool.false_eq_true, if_false] at h
      exact ih p h

/-- The common tail of `spawn_food` either leaves everything but the random
stream unchanged (exhausted stream) or installs a new primary food at a
cell passing the emptiness test. -/
theorem spawnPrimary_spec (g : Game) (t : FoodType) :
    ∃ r, spawnPrimary g t = { g with rand := r } ∨
      ∃ p mv, foodFreeAt g p = true ∧
        spawnPrimary g t = { g with food := some ⟨p, t, mv⟩, rand := r } := by
  unfold spawnPrimary
  rcases hpk : pickFree (foodFreeAt g) g.rand.cells with ⟨o, cs⟩
  cases o with
  | none => exact ⟨{ g.rand with cells := cs }, Or.inl rfl⟩
  | some p =>
    refine ⟨(drawMoving { g.rand with cells := cs }).2,
      Or.inr ⟨p, (drawMoving { g.rand with cells := cs }).1, ?_, rfl⟩⟩
    have := pickFree_sound (foodFreeAt g) g.rand.cells p
    rw [hpk] at this
    exact this rfl

/-- The bonus-food block appends at most one concurrent food, of the
requested kind, at a cell passing the emptiness test; nothing else
changes except the random stream. -/
theorem appendConcurrent_spec (g : Game) (t : FoodType) :
    ∃ app r,
      appendConcurrent g t =
        { g with concurrentFoods := g.concurrentFoods ++ app, rand := r } ∧
      (app = [] ∨ ∃ p mv, app = [⟨p, t, mv⟩] ∧ foodFreeAt g p = true) := by
  unfold appendConcurrent
  rcases hpk : pickFree (foodFreeAt g) g.rand.cells with ⟨o, cs⟩
  cases o with
  | none =>
    refine ⟨[], { g.rand with cells := cs }, by simp, Or.inl rfl⟩
  | some p =>
    refine ⟨[⟨p, t, (drawMoving { g.rand with cells := cs }).1⟩],
      (drawMoving { g.rand with cells := cs }).2, rfl,
      Or.inr ⟨p, (drawMoving { g.rand with cells := cs }).1, rfl, ?_⟩⟩
    have := pickFree_sound (foodFreeAt g) g.rand.cells p
    rw [hpk] at this
    exact this rfl

/-- Shape of `_spawn_rotten_with_normal`: the primary food is replaced by
a Rotten food at a free cell (or kept on stream exhaustion), and at most
one concurrent Normal food is appended, at a cell that passes the
emptiness test against the new primary food. -/
theorem spawnRottenWithNormal_spec (g : Game) :
    ∃ fd app r,
      spawnRottenWithNormal g =
        { g with food := fd, concurrentFoods := g.concurrentFoods ++ app,
                 rand := r } ∧
      (fd = g.food ∨ ∃ p t mv, fd = some ⟨p, t, mv⟩ ∧ foodFreeAt g p = true) ∧
      (∀ x ∈ app, foodFreeAt { g with food := fd } x.pos = true) ∧
      (app = [] ∨ ∃ x, app = [x] ∧ x.type = .normal ∧
        ∃ f', fd = some f' ∧ f'.type = .rotten) := by
  unfold spawnRottenWithNormal
  rcases hpk : pickFree (foodFreeAt g) g.rand.cells with ⟨o, cs⟩
  cases o with
  | none =>
    refine ⟨g.food, [], { g.rand with cells := cs }, by simp, Or.inl rfl,
      by simp, Or.inl rfl⟩
  | some p =>
    have hfree : foodFreeAt g p = true := by
      have := pickFree_sound (foodFreeAt g) g.rand.cells p
      rw [hpk] at this
      exact this rfl
    set mv := (drawMoving { g.rand with cells := cs }).1 with hmv
    set r' := (drawMoving { g.rand with cells := cs }).2 with hr'
    obtain ⟨app, r2, heq, hshape⟩ :=
      appendConcurrent_spec
        { g with food := some ⟨p, .rotten, mv⟩, rand := r' } .normal
    refine ⟨some ⟨p, .rotten, mv⟩, app, r2, heq,
      Or.inr ⟨p, .rotten, mv, rfl, hfree⟩, ?_, ?_⟩
    · intro x hx
      rcases hshape with h | ⟨q, mv2, happ, hqfree⟩
      · simp [h] at hx
      · subst happ
        simp only [List.mem_singleton] at hx
        subst hx
        exact hqfree
    · rcases hshape with h | ⟨q, mv2, happ, hqfree⟩
      · exact Or.inl h
      · exact Or.inr ⟨⟨q, .normal, mv2⟩, happ, rfl, ⟨p, .rotten, mv⟩, rfl, rfl⟩

/-- Shape of `spawn_food`: the primary food is replaced by a food at a
free cell (or kept on stream exhaustion); a concurrent Normal food is
appended only on the Rotten spawn variant, at a cell that passes the
emptiness test against the new (rotten) primary food. -/
theorem spawnFood_spec (g : Game) :
    ∃ fd app r,
      spawnFood g =
        { g with food := fd, concurrentFoods := g.concurrentFoods ++ app,
                 rand := r } ∧
      (fd = g.food ∨ ∃ p t mv, fd = some ⟨p, t, mv⟩ ∧ foodFreeAt g p = true) ∧
      (∀ x ∈ app, foodFreeAt { g with food := fd } x.pos = true) ∧
      (app = [] ∨ ∃ x, app = [x] ∧ x.type = .normal ∧
        ∃ f', fd = some f' ∧ f'.type = .rotten) := by
  unfold spawnFood
  by_cases h1 : (nextFloat g.rand).1 < mkRat 22 100
  · simp only [h1, if_true]
    by_cases h2 : (nextFloat (nextFloat g.rand).2).1 < mkRat 35 100
    · simp only [h2, if_true]
      exact spawnRottenWithNormal_spec { g with rand := (nextFloat (nextFloat g.rand).2).2 }
    · simp only [h2, if_false]
      obtain ⟨r, hc⟩ :=
        spawnPrimary_spec { g with rand := (nextFloat (nextFloat g.rand).2).2 } .golden
      rcases hc with heq | ⟨p, mv, hfree, heq⟩
      · exact ⟨g.food, [], r, by simp [heq], Or.inl rfl, by simp, Or.inl rfl⟩
      · exact ⟨some ⟨p, .golden, mv⟩, [], r, by simp [heq],
          Or.inr ⟨p, .golden, mv, rfl, hfree⟩, by simp, Or.inl rfl⟩
  · simp only [h1, if_false]
    obtain ⟨r, hc⟩ := spawnPrimary_spec { g with rand := (nextFloat g.rand).2 } .normal
    rcases hc with heq | ⟨p, mv, hfree, heq⟩
    · exact ⟨g.food, [], r, by simp [heq], Or.inl rfl, by simp, Or.inl rfl⟩
    · exact ⟨some ⟨p, .normal, mv⟩, [], r, by simp [heq],
        Or.inr ⟨p, .normal, mv, rfl, hfree⟩, by simp, Or.inl rfl⟩

/-- Shape of `_spawn_concurrent_food`: the primary food is respawned via
the regular policy, then at most one concurrent Golden food is appended
(plus the Rotten variant's Normal food when the respawn rolled Rotten);
every appended food passes the emptiness test against the new primary. -/
theorem spawnConcurrentFood_spec (g : Game) :
    ∃ fd appN appG r,
      spawnConcurrentFood g =
        { g with food := fd,
                 concurrentFoods := g.concurrentFoods ++ (appN ++ appG),
                 rand := r } ∧
      (fd = g.food ∨ ∃ p t mv, fd = some ⟨p, t, mv⟩ ∧ foodFreeAt g p = true) ∧
      (∀ x ∈ appN ++ appG, foodFreeAt { g with food := fd } x.pos = true) ∧
      (appN = [] ∨ ∃ x, appN = [x] ∧ x.type = .normal ∧
        ∃ f', fd = some f' ∧ f'.type = .rotten) ∧
      (appG = [] ∨ ∃ x, appG = [x] ∧ x.type = .golden) := by
  unfold spawnConcurrentFood
  obtain ⟨fd, appN, r1, heq, hfd, hfree, hshape⟩ := spawnFood_spec g
  rw [heq]
  obtain ⟨appG, r2, heq2, hshape2⟩ :=
    appendConcurrent_spec
      { g with food := fd, concurrentFoods := g.concurrentFoods ++ appN,
               rand := r1 } .golden
  refine ⟨fd, appN, appG, r2, ?_, hfd, ?_, hshape, ?_⟩
  · rw [heq2]
    simp [List.append_assoc]
  · intro x hx
    rcases List.mem_append.mp hx with hx | hx
    · exact hfree x hx
    · rcases hshape2 with h | ⟨q, mv, happ, hqfree⟩
      · simp [h] at hx
      · subst happ
        simp only [List.mem_singleton] at hx
        subst hx
        exact hqfree
  · rcases hshape2 with h | ⟨q, mv, happ, _⟩
    · exact Or.inl h
    · exact Or.inr ⟨⟨q, .golden, mv⟩, happ, rfl⟩

/-! ## Soundness of the reachability BFS, and obstacle placement -/

/-- Every cell that the BFS expansion adds to the queue is either already
queued or a legal (in-bounds, unblocked) cardinal neighbour of the
expanded cell. -/
theorem foldl_expandStep_mem (blocked : Cell → Bool) (c : Cell) :
    ∀ (ds : List Cell) (qv : List Cell × List Cell) (x : Cell),
      x ∈ (ds.foldl (expandStep blocked c) qv).1 →
      x ∈ qv.1 ∨ ∃ d ∈ ds, x = (c.1 + d.1, c.2 + d.2) ∧
        inBounds x = true ∧ blocked x = false := by
  intro ds
  induction ds with
  | nil => intro qv x hx; exact Or.inl hx
  | cons d ds ih =>
    intro qv x hx
    rw [List.foldl_cons] at hx
    rcases ih (expandStep blocked c qv d) x hx with hx' | ⟨d', hd', hx'⟩
    · unfold expandStep at hx'
      by_cases hc : (inBounds (c.1 + d.1, c.2 + d.2) &&
          !(decide ((c.1 + d.1, c.2 + d.2) ∈ qv.2)) &&
          !blocked (c.1 + d.1, c.2 + d.2)) = true
      · simp only [hc, if_true] at hx'
        rcases List.mem_append.mp hx' with h | h
        · exact Or.inl h
        · simp only [List.mem_singleton] at h
          subst h
          simp only [Bool.and_eq_true, Bool.not_eq_true'] at hc
          exact Or.inr ⟨d, List.mem_cons_self d ds, rfl, hc.1.1, hc.2⟩
      · simp only [Bool.not_eq_true] at hc
        simp only [hc, Bool.false_eq_true, if_false] at hx'
        exact Or.inl hx'
    · exact Or.inr ⟨d', List.mem_cons_of_mem d hd', hx'⟩

/-- Soundness of the BFS of `_is_food_accessible`: if the search reports
the target reached, a 4-connected in-bounds path avoiding the blocked
cells leads from the start to the target. -/
theorem bfs_sound (blocked : Cell → Bool) (target start : Cell) :
    ∀ (fuel : ℕ) (queue visited : List Cell),
      (∀ c ∈ queue, Reach blocked start c) →
      bfs blocked target fuel queue visited = true →
      Reach blocked start target := by
  intro fuel
  induction fuel with
  | zero => intro queue visited _ h; simp [bfs] at h
  | succ fuel ih =>
    intro queue visited hinv h
    cases queue with
    | nil => simp [bfs] at h
    | cons c q =>
      unfold bfs at h
      by_cases hct : c = target
      · subst hct
        exact hinv c (List.mem_cons_self c q)
      · simp only [hct, if_false] at h
        refine ih _ _ ?_ h
        intro x hx
        rcases foldl_expandStep_mem blocked c dirs (q, visited) x hx with
          hx' | ⟨d, _, hxd, hxin, hxbl⟩
        · exact hinv x (List.mem_cons_of_mem c hx')
        · exact Relation.ReflTransGen.tail (hinv c (List.mem_cons_self c q))
            ⟨⟨d, by assumption, hxd⟩, hxin, hxbl⟩

/-- If `_is_food_accessible` accepts a candidate obstacle, the primary
food (when one exists) is reachable from the snake's head by a
4-connected path avoiding snake, obstacles and the candidate. -/
theorem foodAccessible_sound (g : Game) (newObs : Cell)
    (h : foodAccessible g newObs = true) :
    ∀ f, g.food = some f →
      Reach (blockedWith g newObs) g.snake.headI f.pos := by
  intro f hf
  unfold foodAccessible at h
  rw [hf] at h
  refine bfs_sound (blockedWith g newObs) f.pos g.snake.headI bfsFuel
    [g.snake.headI] [g.snake.headI] ?_ h
  intro c hc
  simp only [List.mem_singleton] at hc
  subst hc
  exact Relation.ReflTransGen.refl

/-- Shape of the 50-attempt loop of `spawn_obstacle`: either nothing but
the random stream changes, or exactly one obstacle is appended, at an
empty cell accepted by the reachability pre-check. -/
theorem spawnObstacleLoop_spec :
    ∀ (n : ℕ) (g : Game),
      (∃ r, spawnObstacleLoop g n = { g with rand := r }) ∨
        ∃ p r, foodFreeAt g p = true ∧ foodAccessible g p = true ∧
          spawnObstacleLoop g n =
            { g with obstacles := g.obstacles ++ [p], rand := r } := by
  intro n
  induction n with
  | zero => intro g; exact Or.inl ⟨g.rand, rfl⟩
  | succ n ih =>
    intro g
    set p := (nextCell g.rand).1 with hp
    set g' : Game := { g with rand := (nextCell g.rand).2 } with hg'
    have hstep : spawnObstacleLoop g (n + 1) =
        if foodFreeAt g' p && foodAccessible g' p then
          { g' with obstacles := g'.obstacles ++ [p] }
        else spawnObstacleLoop g' n := rfl
    rw [hstep]
    by_cases hc : (foodFreeAt g' p && foodAccessible g' p) = true
    · rw [hc, if_pos rfl]
      have hc' := hc
      simp only [Bool.and_eq_true] at hc'
      exact Or.inr ⟨p, g'.rand, hc'.1, hc'.2, rfl⟩
    · simp only [Bool.not_eq_true] at hc
      rw [hc, if_neg (by decide)]
      rcases ih g' with ⟨r, h⟩ | ⟨q, r, h1, h2, h⟩
      · exact Or.inl ⟨r, h⟩
      · exact Or.inr ⟨q, r, h1, h2, h⟩

/-- Shape of `spawn_obstacle`: a no-op at the obstacle cap, otherwise as
`spawnObstacleLoop_spec`. -/
theorem spawnObstacle_spec (g : Game) :
    (∃ r, spawnObstacle g = { g with rand := r }) ∨
      ∃ p r, foodFreeAt g p = true ∧ foodAccessible g p = true ∧
        spawnObstacle g =
          { g with obstacles := g.obstacles ++ [p], rand := r } := by
  unfold spawnObstacle
  by_cases hc : 40 ≤ g.obstacles.length
  · rw [if_pos hc]
    exact Or.inl ⟨g.rand, rfl⟩
  · rw [if_neg hc]
    exact spawnObstacleLoop_spec 50 g

/-! ## Consumption and speed lemmas -/

/-- A cell passing the emptiness test is off the snake, off the
obstacles, and distinct from the primary food's cell. -/
theorem foodFreeAt_spec (g : Game) (p : Cell) (h : foodFreeAt g p = true) :
    p ∉ g.snake ∧ p ∉ g.obstacles ∧ ∀ f, g.food = some f → p ≠ f.pos := by
  unfold foodFreeAt at h
  rcases hgf : g.food with _ | f0
  · rw [hgf] at h
    simp only [Bool.and_true, Bool.and_eq_true, Bool.not_eq_true',
      decide_eq_false_iff_not] at h
    exact ⟨h.1, h.2, fun f hf => by cases hf⟩
  · rw [hgf] at h
    simp only [Bool.and_eq_true, Bool.not_eq_true', decide_eq_false_iff_not,
      decide_eq_true_eq] at h
    refine ⟨h.1.1, h.1.2, fun f hf => ?_⟩
    cases hf
    exact h.2

/-- The speed recomputation matches the specified curve
`min(speed_max, speed_base + eaten*step + 0.1*max(0, eaten-10))`. -/
theorem newSpeed_eq (eaten : ℕ) :
    newSpeed eaten =
      min 15 (4 + (eaten : ℚ) * (3 / 10) + (1 / 10) * max 0 ((eaten : ℚ) - 10)) := by
  unfold newSpeed
  by_cases h : 10 < eaten
  · rw [if_pos h]
    have h10 : (10 : ℚ) ≤ (eaten : ℚ) := by exact_mod_cast Nat.le_of_lt h
    have hmax : max 0 ((eaten : ℚ) - 10) = (eaten : ℚ) - 10 :=
      max_eq_right (by linarith)
    have hcast : ((eaten - 10 : ℕ) : ℚ) = (eaten : ℚ) - 10 := by
      push_cast [Nat.le_of_lt h]
      ring
    rw [hmax, hcast]
    ring_nf
  · rw [if_neg h]
    have h10 : (eaten : ℚ) ≤ 10 := by
      exact_mod_cast Nat.le_of_not_lt h
    have hmax : max 0 ((eaten : ℚ) - 10) = 0 := max_eq_left (by linarith)
    rw [hmax]
    ring_nf

/-- The recomputed speed always lies in `[speed_base, speed_max]`. -/
theorem newSpeed_bounds (eaten : ℕ) :
    4 ≤ newSpeed eaten ∧ newSpeed eaten ≤ 15 := by
  unfold newSpeed
  constructor
  · refine le_min (by norm_num) ?_
    have h1 : (0 : ℚ) ≤ (eaten : ℚ) * mkRat 3 10 := by positivity
    have h2 : (0 : ℚ) ≤
        (if 10 < eaten then ((eaten - 10 : ℕ) : ℚ) * mkRat 1 10 else 0) := by
      split <;> positivity
    linarith
  · exact min_le_left _ _

/-- Shape of the obstacle-cadence step
`if self.food_eaten % obstacle_every_n_foods == 0: self.spawn_obstacle()`:
at most one obstacle is appended. -/
theorem cadence_spec (g3 : Game) :
    ∃ ob r,
      (if g3.foodEaten % 3 = 0 then spawnObstacle g3 else g3) =
        { g3 with obstacles := g3.obstacles ++ ob, rand := r } ∧
      (ob = [] ∨ ∃ p, ob = [p]) := by
  by_cases hc : g3.foodEaten % 3 = 0
  · rw [if_pos hc]
    rcases spawnObstacle_spec g3 with ⟨r, h⟩ | ⟨p, r, _, _, h⟩
    · exact ⟨[], r, by rw [h]; simp, Or.inl rfl⟩
    · exact ⟨[p], r, by rw [h], Or.inr ⟨p, rfl⟩⟩
  · rw [if_neg hc]
    exact ⟨[], g3.rand, by simp, Or.inl rfl⟩

/-- Shape of `_eat_concurrent_food`: score by kind, counter bump, speed
recomputation, and possibly one obstacle appended on the cadence. -/
theorem eatConcurrentFood_spec (g : Game) (f : Food) :
    ∃ ob r,
      eatConcurrentFood g f =
        { g with
            score := g.score +
              (match f.type with | .golden => 3 | .normal => 1 | .rotten => 0),
            foodEaten := g.foodEaten + 1,
            speed := newSpeed (g.foodEaten + 1),
            obstacles := g.obstacles ++ ob, rand := r } ∧
      (ob = [] ∨ ∃ p, ob = [p]) := by
  obtain ⟨pos, ty, mv⟩ := f
  cases ty with
  | normal =>
    obtain ⟨ob, r, heq, hsh⟩ := cadence_spec
      { g with score := g.score + 1, foodEaten := g.foodEaten + 1,
               speed := newSpeed (g.foodEaten + 1) }
    exact ⟨ob, r, heq, hsh⟩
  | golden =>
    obtain ⟨ob, r, heq, hsh⟩ := cadence_spec
      { g with score := g.score + 3, foodEaten := g.foodEaten + 1,
               speed := newSpeed (g.foodEaten + 1) }
    exact ⟨ob, r, heq, hsh⟩
  | rotten =>
    obtain ⟨ob, r, heq, hsh⟩ := cadence_spec
      { g with score := g.score, foodEaten := g.foodEaten + 1,
               speed := newSpeed (g.foodEaten + 1) }
    exact ⟨ob, r, heq, hsh⟩

/-- Shape of `_eat_food` on a Normal or Golden primary food: score delta
(+1 / +3), counter bump, speed recomputation, primary respawn (possibly
with a Rotten variant's bonus food) and the obstacle cadence. -/
theorem eatFood_ng_spec (g : Game) (pos : Cell) (ty : FoodType) (mv : Bool)
    (hf : g.food = some ⟨pos, ty, mv⟩) (ht : ty = .normal ∨ ty = .golden) :
    ∃ fd app ob r,
      eatFood g =
        { g with
            score := g.score + (if ty = .golden then 3 else 1),
            foodEaten := g.foodEaten + 1,
            speed := newSpeed (g.foodEaten + 1),
            food := fd,
            concurrentFoods := g.concurrentFoods ++ app,
            obstacles := g.obstacles ++ ob,
            rand := r } ∧
      (∀ x ∈ app, x.pos ∉ g.snake ∧ x.pos ∉ g.obstacles) ∧
      (app = [] ∨ ∃ x, app = [x]) ∧
      (ob = [] ∨ ∃ p, ob = [p]) := by
  rcases ht with ht | ht <;> subst ht
  · set g3 : Game :=
      { g with score := g.score + 1, foodEaten := g.foodEaten + 1,
               speed := newSpeed (g.foodEaten + 1),
               food := some ⟨pos, FoodType.normal, mv⟩ } with hg3
    have hstep : eatFood g =
        if (spawnFood g3).foodEaten % 3 = 0 then spawnObstacle (spawnFood g3)
        else spawnFood g3 := by
      unfold eatFood
      rw [hf]
      rfl
    obtain ⟨fd, app, r1, heq, _, hfree, hshape⟩ := spawnFood_spec g3
    rw [hstep, heq]
    obtain ⟨ob, r2, heq2, hsh2⟩ := cadence_spec
      { g3 with food := fd, concurrentFoods := g3.concurrentFoods ++ app,
                rand := r1 }
    rw [heq2]
    refine ⟨fd, app, ob, r2, rfl, ?_, ?_, hsh2⟩
    · intro x hx
      exact ⟨(foodFreeAt_spec _ _ (hfree x hx)).1,
        (foodFreeAt_spec _ _ (hfree x hx)).2.1⟩
    · rcases hshape with h | ⟨x, hx, _⟩
      · exact Or.inl h
      · exact Or.inr ⟨x, hx⟩
  · set g3 : Game :=
      { g with score := g.score + 3, foodEaten := g.foodEaten + 1,
               speed := newSpeed (g.foodEaten + 1),
               food := some ⟨pos, FoodType.golden, mv⟩ } with hg3
    have hstep : eatFood g =
        if (spawnFood g3).foodEaten % 3 = 0 then spawnObstacle (spawnFood g3)
        else spawnFood g3 := by
      unfold eatFood
      rw [hf]
      rfl
    obtain ⟨fd, app, r1, heq, _, hfree, hshape⟩ := spawnFood_spec g3
    rw [hstep, heq]
    obtain ⟨ob, r2, heq2, hsh2⟩ := cadence_spec
      { g3 with food := fd, concurrentFoods := g3.concurrentFoods ++ app,
                rand := r1 }
    rw [heq2]
    refine ⟨fd, app, ob, r2, rfl, ?_, ?_, hsh2⟩
    · intro x hx
      exact ⟨(foodFreeAt_spec _ _ (hfree x hx)).1,
        (foodFreeAt_spec _ _ (hfree x hx)).2.1⟩
    · rcases hshape with h | ⟨x, hx, _⟩
      · exact Or.inl h
      · exact Or.inr ⟨x, hx⟩

/-- Shape of `_eat_food` on a Rotten primary food: score floored
decrement, one tail pop (guarded by the minimum length), recovery spawn of
the primary plus concurrent foods, early return — the eaten counter and
the speed are untouched. -/
theorem eatFood_rotten_spec (g : Game) (pos : Cell) (mv : Bool)
    (hf : g.food = some ⟨pos, .rotten, mv⟩) :
    ∃ fd appN appG r,
      eatFood g =
        { g with
            score := g.score - 1,
            snake := if 1 < g.snake.length then g.snake.dropLast else g.snake,
            food := fd,
            concurrentFoods := g.concurrentFoods ++ (appN ++ appG),
            rand := r } ∧
      (∀ x ∈ appN ++ appG,
        x.pos ∉ (if 1 < g.snake.length then g.snake.dropLast else g.snake) ∧
        x.pos ∉ g.obstacles) ∧
      (appN = [] ∨ ∃ x, appN = [x] ∧ x.type = .normal ∧
        ∃ f', fd = some f' ∧ f'.type = .rotten) ∧
      (appG = [] ∨ ∃ x, appG = [x] ∧ x.type = .golden) := by
  have hstep : eatFood g =
      spawnConcurrentFood
        (if 1 < g.snake.length then
          { g with score := g.score - 1, snake := g.snake.dropLast,
                   food := some ⟨pos, FoodType.rotten, mv⟩ }
         else { g with score := g.score - 1,
                       food := some ⟨pos, FoodType.rotten, mv⟩ }) := by
    unfold eatFood
    rw [hf]
  by_cases hl : 1 < g.snake.length
  · rw [hstep, if_pos hl]
    obtain ⟨fd, appN, appG, r, heq, _, hfree, hshN, hshG⟩ :=
      spawnConcurrentFood_spec
        { g with score := g.score - 1, snake := g.snake.dropLast,
                 food := some ⟨pos, FoodType.rotten, mv⟩ }
    rw [heq]
    refine ⟨fd, appN, appG, r, by rw [if_pos hl], ?_, hshN, hshG⟩
    intro x hx
    rw [if_pos hl]
    exact ⟨(foodFreeAt_spec _ _ (hfree x hx)).1,
      (foodFreeAt_spec _ _ (hfree x hx)).2.1⟩
  · rw [hstep, if_neg hl]
    obtain ⟨fd, appN, appG, r, heq, _, hfree, hshN, hshG⟩ :=
      spawnConcurrentFood_spec
        { g with score := g.score - 1,
                 food := some ⟨pos, FoodType.rotten, mv⟩ }
    rw [heq]
    refine ⟨fd, appN, appG, r, by rw [if_neg hl], ?_, hshN, hshG⟩
    intro x hx
    rw [if_neg hl]
    exact ⟨(foodFreeAt_spec _ _ (hfree x hx)).1,
      (foodFreeAt_spec _ _ (hfree x hx)).2.1⟩

/-- The concurrent-food scan is a no-op when no concurrent food sits on
the new head. -/
theorem eatLoop_no_match (g : Game) (nh : Cell) :
    ∀ (l : List Food), (∀ x ∈ l, x.pos ≠ nh) →
      eatLoop g nh l = (l, g, false) := by
  intro l
  induction l with
  | nil => intro _; rfl
  | cons f fs ih =>
    intro h
    have hstep : eatLoop g nh (f :: fs) =
        if f.pos = nh then (fs, eatConcurrentFood g f, true)
        else (f :: (eatLoop g nh fs).1, (eatLoop g nh fs).2.1,
          (eatLoop g nh fs).2.2) := rfl
    rw [hstep, if_neg (h f (List.mem_cons_self f fs)),
      ih (fun x hx => h x (List.mem_cons_of_mem f hx))]

/-- The concurrent-food scan consumes exactly the first food sitting on
the new head and removes it, leaving every other element in place. -/
theorem eatLoop_first (g : Game) (nh : Cell) (f : Food) (hf : f.pos = nh) :
    ∀ (l1 l2 : List Food), (∀ x ∈ l1, x.pos ≠ nh) →
      eatLoop g nh (l1 ++ f :: l2) = (l1 ++ l2, eatConcurrentFood g f, true) := by
  intro l1
  induction l1 with
  | nil =>
    intro l2 _
    have hstep : eatLoop g nh (f :: l2) =
        if f.pos = nh then (l2, eatConcurrentFood g f, true)
        else (f :: (eatLoop g nh l2).1, (eatLoop g nh l2).2.1,
          (eatLoop g nh l2).2.2) := rfl
    rw [List.nil_append, List.nil_append, hstep, if_pos hf]
  | cons a l1 ih =>
    intro l2 h
    have hstep : eatLoop g nh (a :: (l1 ++ f :: l2)) =
        if a.pos = nh then (l1 ++ f :: l2, eatConcurrentFood g a, true)
        else (a :: (eatLoop g nh (l1 ++ f :: l2)).1,
          (eatLoop g nh (l1 ++ f :: l2)).2.1,
          (eatLoop g nh (l1 ++ f :: l2)).2.2) := rfl
    rw [List.cons_append, hstep, if_neg (h a (List.mem_cons_self a l1)),
      ih l2 (fun x hx => h x (List.mem_cons_of_mem a hx))]
    rfl

/-! ## The per-tick step `move_snake` -/

/-- Unfolding of `move_snake` as its four-way case split on the terminal
checks, with the queued direction already committed. -/
theorem moveSnake_eq (g : Game) :
    moveSnake g =
      if g.gameOver || g.paused then g
      else if !inBounds (newHead g) then
        { g with direction := g.nextDirection, gameOver := true }
      else if newHead g ∈ g.snake then
        { g with direction := g.nextDirection, gameOver := true }
      else if newHead g ∈ g.obstacles then
        { g with direction := g.nextDirection, gameOver := true }
      else moveSnakeCore { g with direction := g.nextDirection } (newHead g) :=
  rfl

/-- On a Running, non-colliding tick, `move_snake` reduces to the
post-collision core. -/
theorem moveSnake_nonterminal (g : Game)
    (hgo : g.gameOver = false) (hp : g.paused = false)
    (hin : inBounds (newHead g) = true) (hsn : newHead g ∉ g.snake)
    (hob : newHead g ∉ g.obstacles) :
    moveSnake g =
      moveSnakeCore { g with direction := g.nextDirection } (newHead g) := by
  rw [moveSnake_eq, if_neg (by simp [hgo, hp]), if_neg (by simp [hin]),
    if_neg hsn, if_neg hob]

/-- The core step when the new head hits the primary food: eat it, then
scan the concurrent foods; the tail is never popped (food was consumed). -/
theorem moveSnakeCore_hit (g0 : Game) (nh : Cell)
    (hmain : mainHit { g0 with snake := nh :: g0.snake } nh = true) :
    moveSnakeCore g0 nh =
      { (eatLoop (eatFood { g0 with snake := nh :: g0.snake }) nh
          (eatFood { g0 with snake := nh :: g0.snake }).concurrentFoods).2.1 with
        concurrentFoods :=
          (eatLoop (eatFood { g0 with snake := nh :: g0.snake }) nh
            (eatFood { g0 with snake := nh :: g0.snake }).concurrentFoods).1 } := by
  simp only [moveSnakeCore, hmain, if_true, Bool.true_or]

/-- The core step when the new head misses the primary food: scan the
concurrent foods; the tail is popped iff none matched. -/
theorem moveSnakeCore_nohit (g0 : Game) (nh : Cell)
    (hmain : mainHit { g0 with snake := nh :: g0.snake } nh = false) :
    moveSnakeCore g0 nh =
      (if (eatLoop { g0 with snake := nh :: g0.snake } nh
            g0.concurrentFoods).2.2 then
        { (eatLoop { g0 with snake := nh :: g0.snake } nh
            g0.concurrentFoods).2.1 with
          concurrentFoods :=
            (eatLoop { g0 with snake := nh :: g0.snake } nh
              g0.concurrentFoods).1 }
      else
        { (eatLoop { g0 with snake := nh :: g0.snake } nh
            g0.concurrentFoods).2.1 with
          concurrentFoods :=
            (eatLoop { g0 with snake := nh :: g0.snake } nh
              g0.concurrentFoods).1,
          snake :=
            ((eatLoop { g0 with snake := nh :: g0.snake } nh
              g0.concurrentFoods).2.1.snake).dropLast }) := by
  simp only [moveSnakeCore, hmain, Bool.false_eq_true, if_false, Bool.false_or]

/-- Any list of foods either has no element on the head cell, or splits
as `l1 ++ f :: l2` with `f` the first element on the head cell. -/
theorem first_match_decomp (nh : Cell) :
    ∀ l : List Food,
      (∀ x ∈ l, x.pos ≠ nh) ∨
      ∃ l1 f l2, l = l1 ++ f :: l2 ∧ (∀ x ∈ l1, x.pos ≠ nh) ∧ f.pos = nh := by
  intro l
  induction l with
  | nil => exact Or.inl (by simp)
  | cons a l ih =>
    by_cases ha : a.pos = nh
    · exact Or.inr ⟨[], a, l, by simp, by simp, ha⟩
    · rcases ih with h | ⟨l1, f, l2, hdec, hcl, hfp⟩
      · refine Or.inl ?_
        intro x hx
        rcases List.mem_cons.mp hx with hx | hx
        · exact hx ▸ ha
        · exact h x hx
      · refine Or.inr ⟨a :: l1, f, l2, by rw [hdec, List.cons_append], ?_, hfp⟩
        intro x hx
        rcases List.mem_cons.mp hx with hx | hx
        · exact hx ▸ ha
        · exact hcl x hx

/-! ## Claim theorems -/

/-- C6: on a Running tick, the terminal conditions — (a) new head out of
bounds, (b) new head in the snake body, (c) new head in the obstacle set,
tested in that order in `move_snake` — each transition the phase to
GameOver immediately: whenever any of them holds, the resulting state is
the old state with `game_over := true` and the committed direction, so no
other simulation state (snake, score, eaten counter, food, concurrent
foods, obstacles, speed) is mutated that tick. -/
theorem moveSnake_terminal_no_mutation (g : Game)
    (hgo : g.gameOver = false) (hp : g.paused = false)
    (hterm : inBounds (newHead g) = false ∨ newHead g ∈ g.snake ∨
      newHead g ∈ g.obstacles) :
    moveSnake g = { g with direction := g.nextDirection, gameOver := true } := by
  rw [moveSnake_eq, if_neg (by simp [hgo, hp])]
  by_cases hb : inBounds (newHead g) = true
  · rw [if_neg (by simp [hb])]
    rcases hterm with h | h | h
    · rw [hb] at h
      cases h
    · rw [if_pos h]
    · by_cases hs : newHead g ∈ g.snake
      · rw [if_pos hs]
      · rw [if_neg hs, if_pos h]
  · have hb' : inBounds (newHead g) = false := by
      simpa using hb
    rw [if_pos (by simp [hb'])]

/-- Concrete Running state one cell away from the right wall, used to
instantiate `moveSnake_terminal_no_mutation`. -/
def gameC6 : Game :=
  { snake := [(29, 15)], direction := (1, 0), nextDirection := (1, 0)
    score := 3, foodEaten := 2, tickCount := 7, gameOver := false
    paused := false, speed := 4, food := none, obstacles := []
    concurrentFoods := [], waitingForInitials := false, playerInitials := ""
    leaderboard := [], rand := ⟨[], []⟩ }

/-- Witness for C6: stepping from `(29, 15)` towards the right wall ends
the game with every other field untouched. -/
theorem moveSnake_terminal_no_mutation_witness :
    moveSnake gameC6 =
      { gameC6 with direction := gameC6.nextDirection, gameOver := true } :=
  moveSnake_terminal_no_mutation gameC6 rfl rfl (Or.inl (by decide))

/-- C3: a Running tick whose new head lands on a Rotten primary food,
with prior length above the minimum floor (and no concurrent food on that
cell): the head prepend (+1) and the single Rotten penalty pop (−1)
cancel, and the food-was-consumed flag suppresses the no-food tail pop —
so the length is unchanged, the score is `max(0, prior − 1)`
(truncated subtraction on `ℕ`), and the eaten counter is untouched. -/
theorem rotten_tick_spec (g : Game) (pos : Cell) (mv : Bool)
    (hgo : g.gameOver = false) (hp : g.paused = false) (hne : g.snake ≠ [])
    (hf : g.food = some ⟨pos, .rotten, mv⟩) (hpos : pos = newHead g)
    (hin : inBounds (newHead g) = true) (hsn : newHead g ∉ g.snake)
    (hob : newHead g ∉ g.obstacles) (hlen : 1 < g.snake.length)
    (hcf : ∀ x ∈ g.concurrentFoods, x.pos ≠ newHead g) :
    (moveSnake g).snake.length = g.snake.length ∧
    (moveSnake g).score = g.score - 1 ∧
    (moveSnake g).foodEaten = g.foodEaten := by
  rw [moveSnake_nonterminal g hgo hp hin hsn hob]
  have hmain : mainHit
      { { g with direction := g.nextDirection } with
        snake := newHead g :: ({ g with direction := g.nextDirection } : Game).snake }
      (newHead g) = true := by
    simp [mainHit, hf, hpos]
  rw [moveSnakeCore_hit _ _ hmain]
  obtain ⟨fd, appN, appG, r, heq, hfree, _, _⟩ :=
    eatFood_rotten_spec
      { { g with direction := g.nextDirection } with
        snake := newHead g :: ({ g with direction := g.nextDirection } : Game).snake }
      pos mv hf
  rw [heq]
  have hlen1 : 1 < (newHead g :: g.snake).length := by
    have := List.length_pos.mpr hne
    simp only [List.length_cons]
    omega
  have hnhmem : newHead g ∈ (newHead g :: g.snake).dropLast := by
    rcases hsnake : g.snake with _ | ⟨b, bs⟩
    · exact absurd hsnake hne
    · rw [List.dropLast_cons₂]
      exact List.mem_cons_self _ _
  have happ : ∀ x ∈ appN ++ appG, x.pos ≠ newHead g := by
    intro x hx he
    have h1 := (hfree x hx).1
    rw [if_pos hlen1, he] at h1
    exact h1 hnhmem
  have hclean : ∀ x ∈ g.concurrentFoods ++ (appN ++ appG),
      x.pos ≠ newHead g := by
    intro x hx
    rcases List.mem_append.mp hx with hx | hx
    · exact hcf x hx
    · exact happ x hx
  rw [eatLoop_no_match _ _ _ hclean]
  refine ⟨?_, rfl, rfl⟩
  show ((if 1 < (newHead g :: g.snake).length then
      (newHead g :: g.snake).dropLast else newHead g :: g.snake) : List Cell).length =
    g.snake.length
  rw [if_pos hlen1, List.dropLast_eq_take, List.length_take, List.length_cons]
  omega

/-- Concrete Running state (length 5, score 7, Rotten food ahead) used to
instantiate `rotten_tick_spec`. -/
def gameC3 : Game :=
  { snake := [(5, 5), (4, 5), (3, 5), (2, 5), (1, 5)], direction := (1, 0)
    nextDirection := (1, 0), score := 7, foodEaten := 0, tickCount := 0
    gameOver := false, paused := false, speed := 4
    food := some ⟨(6, 5), .rotten, false⟩, obstacles := [], concurrentFoods := []
    waitingForInitials := false, playerInitials := "", leaderboard := []
    rand := ⟨[1, 1, 1], [(0, 0), (1, 1)]⟩ }

/-- Witness for C3: the length-5, score-7 snake eating a Rotten food
keeps length 5, drops to score 6, and leaves the eaten counter at 0. -/
theorem rotten_tick_spec_witness :
    (moveSnake gameC3).snake.length = gameC3.snake.length ∧
    (moveSnake gameC3).score = gameC3.score - 1 ∧
    (moveSnake gameC3).foodEaten = gameC3.foodEaten :=
  rotten_tick_spec gameC3 (6, 5) false rfl rfl (by decide) rfl (by decide)
    (by decide) (by decide) (by decide) (by decide) (by decide)

/-- The primary consumption `_eat_food` only appends to the concurrent-food list, and every food
it appends lies off the resulting snake body; the snake is unchanged
except for the Rotten penalty pop. -/
theorem eatFood_concurrent_append (g : Game) :
    ∃ app, (eatFood g).concurrentFoods = g.concurrentFoods ++ app ∧
      (∀ x ∈ app, x.pos ∉ (eatFood g).snake) ∧
      ((eatFood g).snake = g.snake ∨
        (eatFood g).snake =
          if 1 < g.snake.length then g.snake.dropLast else g.snake) := by
  rcases hgf : g.food with _ | ⟨pos, ty, mv⟩
  · have h : eatFood g = g := by
      unfold eatFood
      rw [hgf]
    exact ⟨[], by simp [h], by simp, Or.inl (by rw [h])⟩
  · cases ty with
    | rotten =>
      obtain ⟨fd, appN, appG, r, heq, hfree, _, _⟩ :=
        eatFood_rotten_spec g pos mv hgf
      refine ⟨appN ++ appG, by rw [heq], ?_, Or.inr (by rw [heq])⟩
      intro x hx
      rw [heq]
      exact (hfree x hx).1
    | normal =>
      obtain ⟨fd, app, ob, r, heq, hfree, _, _⟩ :=
        eatFood_ng_spec g pos .normal mv hgf (Or.inl rfl)
      refine ⟨app, by rw [heq], ?_, Or.inl (by rw [heq])⟩
      intro x hx
      rw [heq]
      exact (hfree x hx).1
    | golden =>
      obtain ⟨fd, app, ob, r, heq, hfree, _, _⟩ :=
        eatFood_ng_spec g pos .golden mv hgf (Or.inr rfl)
      refine ⟨app, by rw [heq], ?_, Or.inl (by rw [heq])⟩
      intro x hx
      rw [heq]
      exact (hfree x hx).1

/-- Concrete Running state with the primary food and one concurrent food
both on the next head cell `(6, 5)`. -/
def gameC2 : Game :=
  { snake := [(5, 5)], direction := (1, 0), nextDirection := (1, 0)
    score := 0, foodEaten := 0, tickCount := 0, gameOver := false
    paused := false, speed := 4, food := some ⟨(6, 5), .normal, false⟩
    obstacles := [], concurrentFoods := [⟨(6, 5), .normal, false⟩]
    waitingForInitials := false, playerInitials := "", leaderboard := []
    rand := ⟨[1, 1], [(0, 0)]⟩ }

/-- C2 (counterexample): when the new head cell holds both the primary
food and a concurrent food, `move_snake` consumes *two* foods in one
tick — the primary-food check and the concurrent-food scan run
independently — so the eaten counter advances by 2 and the score by 2,
refuting "at most one food item is consumed per tick". -/
theorem moveSnake_two_foods_one_tick :
    gameC2.food = some ⟨(6, 5), .normal, false⟩ ∧
    (∃ x ∈ gameC2.concurrentFoods, x.pos = (6, 5)) ∧
    newHead gameC2 = (6, 5) ∧
    (moveSnake gameC2).foodEaten = 2 ∧
    (moveSnake gameC2).score = 2 ∧
    (moveSnake gameC2).concurrentFoods = [] := by
  refine ⟨rfl, ⟨⟨(6, 5), .normal, false⟩, by decide, rfl⟩, by decide, ?_, ?_, ?_⟩
  · decide
  · decide
  · decide

/-- C2 (amended): among the concurrent foods present at the start of the
tick, at most the first one (in iteration order) sitting on the new head
is consumed, and the remainder survive in order (possibly followed by
freshly spawned bonus foods, none of which sits on the new head); the
primary food, however, is checked independently and may be consumed in
the same tick. -/
theorem moveSnake_concurrent_first_match (g : Game)
    (hgo : g.gameOver = false) (hp : g.paused = false) (hne : g.snake ≠ [])
    (hin : inBounds (newHead g) = true) (hsn : newHead g ∉ g.snake)
    (hob : newHead g ∉ g.obstacles) :
    ∃ app, (∀ x ∈ app, x.pos ≠ newHead g) ∧
      (((∀ x ∈ g.concurrentFoods, x.pos ≠ newHead g) ∧
        (moveSnake g).concurrentFoods = g.concurrentFoods ++ app) ∨
       (∃ l1 f l2, g.concurrentFoods = l1 ++ f :: l2 ∧
         (∀ x ∈ l1, x.pos ≠ newHead g) ∧ f.pos = newHead g ∧
         (moveSnake g).concurrentFoods = (l1 ++ l2) ++ app)) := by
  rw [moveSnake_nonterminal g hgo hp hin hsn hob]
  set g1 : Game :=
    { { g with direction := g.nextDirection } with
      snake := newHead g :: ({ g with direction := g.nextDirection } : Game).snake }
    with hg1
  cases hm : mainHit g1 (newHead g) with
  | false =>
    rw [moveSnakeCore_nohit _ _ hm]
    rcases first_match_decomp (newHead g) g.concurrentFoods with hcl | ⟨l1, f, l2, hdec, hcl, hfp⟩
    · rw [eatLoop_no_match _ _ _ hcl]
      exact ⟨[], by simp, Or.inl ⟨hcl, by simp⟩⟩
    · rw [hdec, eatLoop_first _ _ f hfp l1 l2 hcl]
      exact ⟨[], by simp, Or.inr ⟨l1, f, l2, rfl, hcl, hfp, by simp⟩⟩
  | true =>
    rw [moveSnakeCore_hit _ _ hm]
    obtain ⟨app2, happeq, happfree, hsnake⟩ := eatFood_concurrent_append g1
    have hnhsnake : newHead g ∈ (eatFood g1).snake := by
      rcases hsnake with h | h
      · rw [h]
        exact List.mem_cons_self _ _
      · rw [h]
        have hlen1 : 1 < g1.snake.length := by
          have := List.length_pos.mpr hne
          simp only [hg1, List.length_cons]
          omega
        rw [if_pos hlen1]
        rcases hsnake2 : g.snake with _ | ⟨b, bs⟩
        · exact absurd hsnake2 hne
        · show newHead g ∈ (newHead g :: g.snake).dropLast
          rw [hsnake2, List.dropLast_cons₂]
          exact List.mem_cons_self _ _
    have happ2 : ∀ x ∈ app2, x.pos ≠ newHead g := by
      intro x hx he
      exact (he ▸ happfree x hx) hnhsnake
    rw [happeq]
    rcases first_match_decomp (newHead g) g.concurrentFoods with hcl | ⟨l1, f, l2, hdec, hcl, hfp⟩
    · have hclean : ∀ x ∈ g.concurrentFoods ++ app2, x.pos ≠ newHead g := by
        intro x hx
        rcases List.mem_append.mp hx with hx | hx
        · exact hcl x hx
        · exact happ2 x hx
      rw [eatLoop_no_match _ _ _ hclean]
      exact ⟨app2, happ2, Or.inl ⟨hcl, rfl⟩⟩
    · rw [hdec, List.append_assoc, List.cons_append,
        eatLoop_first _ _ f hfp l1 (l2 ++ app2) hcl]
      exact ⟨app2, happ2, Or.inr ⟨l1, f, l2, rfl, hcl, hfp, by
        show l1 ++ (l2 ++ app2) = (l1 ++ l2) ++ app2
        rw [List.append_assoc]⟩⟩

/-- Witness for C2's amended statement, at the two-food state `gameC2`. -/
theorem moveSnake_concurrent_first_match_witness :
    ∃ app, (∀ x ∈ app, x.pos ≠ newHead gameC2) ∧
      (((∀ x ∈ gameC2.concurrentFoods, x.pos ≠ newHead gameC2) ∧
        (moveSnake gameC2).concurrentFoods = gameC2.concurrentFoods ++ app) ∨
       (∃ l1 f l2, gameC2.concurrentFoods = l1 ++ f :: l2 ∧
         (∀ x ∈ l1, x.pos ≠ newHead gameC2) ∧ f.pos = newHead gameC2 ∧
         (moveSnake gameC2).concurrentFoods = (l1 ++ l2) ++ app)) :=
  moveSnake_concurrent_first_match gameC2 rfl rfl (by decide) (by decide)
    (by decide) (by decide)

/-- The speed curve exactly as the specification words it:
`min(speed_max, speed_base + eaten*step + 0.1*max(0, eaten - 10))` with
the default constants 15 / 4 / 0.3. -/
def specSpeed (eaten : ℕ) : ℚ :=
  min 15 (4 + (eaten : ℚ) * (3 / 10) + (1 / 10) * max 0 ((eaten : ℚ) - 10))

/-- C5: every Normal or Golden consumption — primary (`_eat_food`) or
concurrent (`_eat_concurrent_food`) — sets the speed to
`min(speed_max, speed_base + eaten*step + 0.1*max(0, eaten-10))` where
`eaten` is the counter after its increment; in particular the first
Normal food of a fresh session yields speed `4.3`. -/
theorem speed_curve_spec :
    (∀ (g : Game) (pos : Cell) (ty : FoodType) (mv : Bool),
      g.food = some ⟨pos, ty, mv⟩ → ty = .normal ∨ ty = .golden →
      (eatFood g).speed = specSpeed (g.foodEaten + 1)) ∧
    (∀ (g : Game) (f : Food),
      (eatConcurrentFood g f).speed = specSpeed (g.foodEaten + 1)) ∧
    specSpeed 1 = 43 / 10 := by
  have hns : ∀ k : ℕ, newSpeed k = specSpeed k := by
    intro k
    rw [newSpeed_eq]
    rfl
  refine ⟨?_, ?_, ?_⟩
  · intro g pos ty mv hf ht
    obtain ⟨fd, app, ob, r, heq, _, _, _⟩ := eatFood_ng_spec g pos ty mv hf ht
    rw [heq]
    exact hns (g.foodEaten + 1)
  · intro g f
    obtain ⟨ob, r, heq, _⟩ := eatConcurrentFood_spec g f
    rw [heq]
    exact hns (g.foodEaten + 1)
  · unfold specSpeed
    rw [show max (0 : ℚ) ((1 : ℕ) - 10 : ℚ) = 0 from max_eq_left (by norm_num)]
    norm_num

/-- Fresh-session state with a Normal food on the next head cell, for the
C5 witness (Scenario A of the specification). -/
def gameC5 : Game :=
  { snake := [(15, 15)], direction := (1, 0), nextDirection := (1, 0)
    score := 0, foodEaten := 0, tickCount := 0, gameOver := false
    paused := false, speed := 4, food := some ⟨(16, 15), .normal, false⟩
    obstacles := [], concurrentFoods := [], waitingForInitials := false
    playerInitials := "", leaderboard := [], rand := ⟨[1, 1], [(0, 0)]⟩ }

/-- Witness for C5: the first Normal food of a fresh session recomputes
the speed to the specified curve at counter 1, i.e. `4.3`. -/
theorem speed_curve_spec_witness :
    (eatFood gameC5).speed = specSpeed (gameC5.foodEaten + 1) ∧
    specSpeed 1 = 43 / 10 :=
  ⟨speed_curve_spec.1 gameC5 (16, 15) .normal false rfl (Or.inl rfl),
    speed_curve_spec.2.2⟩

/-- The leaderboard test accepts exactly when fewer than
`leaderboard_size` entries exist or the score strictly exceeds the
current minimum. -/
theorem lbQualifies_iff (lb : List ℕ) (s : ℕ) :
    lbQualifies lb s = true ↔
      lb.length < leaderboardSize ∨ (lb ≠ [] ∧ lbMin lb < s) := by
  unfold lbQualifies
  by_cases h5 : lb.length < leaderboardSize
  · simp [h5]
  · rw [if_neg h5]
    by_cases hne : lb ≠ []
    · rw [if_pos hne]
      simp [h5, hne]
    · rw [if_neg hne]
      simp [h5, hne]

/-- C8: at game over (initials not yet prompted), the transition to the
AwaitingInitials phase happens iff the leaderboard has fewer than
`leaderboard_size = 5` entries or the final score strictly exceeds the
current minimum leaderboard score; with 5 entries of minimum 10, a final
score of 10 does not qualify and 11 does. -/
theorem leaderboard_qualification_spec :
    (∀ g : Game, g.gameOver = true → g.waitingForInitials = false →
      ((gameOverCheck g).waitingForInitials = true ↔
        (g.leaderboard.length < leaderboardSize ∨
          (g.leaderboard ≠ [] ∧ lbMin g.leaderboard < g.score)))) ∧
    lbQualifies [10, 12, 13, 14, 15] 10 = false ∧
    lbQualifies [10, 12, 13, 14, 15] 11 = true := by
  refine ⟨?_, by decide, by decide⟩
  intro g hgo hw
  have hstep : gameOverCheck g =
      if lbQualifies g.leaderboard g.score then
        { g with waitingForInitials := true }
      else g := by
    unfold gameOverCheck
    rw [hgo, hw]
    simp
  rw [hstep]
  by_cases hq : lbQualifies g.leaderboard g.score = true
  · rw [if_pos hq]
    simpa using (lbQualifies_iff g.leaderboard g.score).mp hq
  · rw [if_neg hq, hw]
    simp only [Bool.false_eq_true, false_iff]
    intro h
    exact hq ((lbQualifies_iff g.leaderboard g.score).mpr h)

/-- Game-over state with the Scenario-D leaderboard and a score of 11,
for the C8 witness. -/
def gameC8 : Game :=
  { snake := [(5, 5)], direction := (1, 0), nextDirection := (1, 0)
    score := 11, foodEaten := 11, tickCount := 99, gameOver := true
    paused := false, speed := 4, food := none, obstacles := []
    concurrentFoods := [], waitingForInitials := false, playerInitials := ""
    leaderboard := [10, 12, 13, 14, 15], rand := ⟨[], []⟩ }

/-- Witness for C8: with a full leaderboard of minimum 10, a final score
of 11 enters the initials prompt. -/
theorem leaderboard_qualification_witness :
    (gameOverCheck gameC8).waitingForInitials = true :=
  (leaderboard_qualification_spec.1 gameC8 rfl rfl).mpr
    (Or.inr ⟨by decide, by decide⟩)

/-- Plain Running session state for exercising the pause keys. -/
def gameC9 : Game :=
  { snake := [(5, 5), (4, 5)], direction := (1, 0), nextDirection := (1, 0)
    score := 2, foodEaten := 2, tickCount := 30, gameOver := false
    paused := false, speed := 4, food := some ⟨(9, 9), .normal, false⟩
    obstacles := [(1, 1)], concurrentFoods := [], waitingForInitials := false
    playerInitials := "", leaderboard := [7], rand := ⟨[], []⟩ }

/-- C9 (code bug): the SPACE branch of `handle_events` is guarded by
`not self.paused`, so SPACE can never unpause — although the pause
overlay itself says "Press P or SPACE to unpause".  Pressing SPACE twice
from Running therefore leaves the session Paused instead of returning it
to Running, while pressing P twice is the identity, as the claim
demands. -/
theorem pause_toggle_space_bug :
    gameC9.phase = Phase.running ∧
    (pressSpace gameC9).phase = Phase.paused ∧
    (pressSpace (pressSpace gameC9)).phase = Phase.paused ∧
    pressSpace (pressSpace gameC9) ≠ gameC9 ∧
    pressP (pressP gameC9) = gameC9 := by
  refine ⟨rfl, rfl, rfl, by decide, by decide⟩

/-- State with a concurrent Golden food at `(2, 2)` and a random stream
that makes `spawn_food` draw exactly `(2, 2)`. -/
def gameC7 : Game :=
  { snake := [(5, 5)], direction := (1, 0), nextDirection := (1, 0)
    score := 0, foodEaten := 0, tickCount := 0, gameOver := false
    paused := false, speed := 4, food := some ⟨(9, 9), .normal, false⟩
    obstacles := [], concurrentFoods := [⟨(2, 2), .golden, false⟩]
    waitingForInitials := false, playerInitials := "", leaderboard := []
    rand := ⟨[1, 1], [(2, 2)]⟩ }

/-- C7 (counterexample): no rejection loop of the spawn policy checks
`concurrent_foods`, so a fresh primary food can be created exactly on an
active concurrent food's cell. -/
theorem spawnFood_overlaps_concurrent :
    (spawnFood gameC7).food = some ⟨(2, 2), .normal, false⟩ ∧
    ∃ x ∈ gameC7.concurrentFoods, x.pos = (2, 2) := by
  exact ⟨by decide, ⟨(2, 2), .golden, false⟩, by decide, rfl⟩

/-- C7 (amended): every food created by the spawn policy gets a cell off
the snake, off every obstacle, and distinct from the *primary* food that
its rejection test consults (the primary being replaced for `spawn_food`;
the new primary for the bonus foods) — but cells of active concurrent
foods are not excluded. -/
theorem spawn_cells_free_spec :
    (∀ g : Game, (spawnFood g).food ≠ g.food →
      ∃ f, (spawnFood g).food = some f ∧ f.pos ∉ g.snake ∧
        f.pos ∉ g.obstacles ∧ ∀ f0, g.food = some f0 → f.pos ≠ f0.pos) ∧
    (∀ g : Game, ∃ app,
      (spawnFood g).concurrentFoods = g.concurrentFoods ++ app ∧
      ∀ x ∈ app, x.pos ∉ g.snake ∧ x.pos ∉ g.obstacles ∧
        ∀ f0, (spawnFood g).food = some f0 → x.pos ≠ f0.pos) ∧
    (∀ g : Game, ∃ app,
      (spawnConcurrentFood g).concurrentFoods = g.concurrentFoods ++ app ∧
      ∀ x ∈ app, x.pos ∉ g.snake ∧ x.pos ∉ g.obstacles ∧
        ∀ f0, (spawnConcurrentFood g).food = some f0 → x.pos ≠ f0.pos) := by
  refine ⟨?_, ?_, ?_⟩
  · intro g hne
    obtain ⟨fd, app, r, heq, hfd, _, _⟩ := spawnFood_spec g
    rw [heq] at hne ⊢
    rcases hfd with hfd | ⟨p, t, mv, hfd, hfree⟩
    · exact absurd hfd hne
    · obtain ⟨h1, h2, h3⟩ := foodFreeAt_spec g p hfree
      exact ⟨⟨p, t, mv⟩, by rw [hfd], h1, h2, h3⟩
  · intro g
    obtain ⟨fd, app, r, heq, _, hfree, _⟩ := spawnFood_spec g
    rw [heq]
    refine ⟨app, rfl, ?_⟩
    intro x hx
    obtain ⟨h1, h2, h3⟩ := foodFreeAt_spec { g with food := fd } x.pos (hfree x hx)
    exact ⟨h1, h2, h3⟩
  · intro g
    obtain ⟨fd, appN, appG, r, heq, _, hfree, _, _⟩ := spawnConcurrentFood_spec g
    rw [heq]
    refine ⟨appN ++ appG, rfl, ?_⟩
    intro x hx
    obtain ⟨h1, h2, h3⟩ := foodFreeAt_spec { g with food := fd } x.pos (hfree x hx)
    exact ⟨h1, h2, h3⟩

/-- Witness for C7's amended statement, at the overlap state `gameC7`
(where `spawn_food` does create a food). -/
theorem spawn_cells_free_witness :
    ∃ f, (spawnFood gameC7).food = some f ∧ f.pos ∉ gameC7.snake ∧
      f.pos ∉ gameC7.obstacles ∧
      ∀ f0, gameC7.food = some f0 → f.pos ≠ f0.pos :=
  spawn_cells_free_spec.1 gameC7 (by decide)

/-- State about to eat a Rotten primary food, with an empty concurrent
list and a random stream rolling a plain (non-special) respawn. -/
def gameC4 : Game :=
  { snake := [(5, 5), (4, 5)], direction := (1, 0), nextDirection := (1, 0)
    score := 7, foodEaten := 0, tickCount := 0, gameOver := false
    paused := false, speed := 4, food := some ⟨(6, 5), .rotten, false⟩
    obstacles := [], concurrentFoods := [], waitingForInitials := false
    playerInitials := "", leaderboard := [], rand := ⟨[1, 1, 1], [(0, 0), (1, 1)]⟩ }

/-- C4 (counterexample): consuming a Rotten primary food spawns only ONE
concurrent food (the Golden one) when the replacement primary rolls a
non-special kind — `_spawn_concurrent_food` respawns the *primary* food
via `spawn_food` rather than adding a concurrent Normal food — so
afterwards one concurrent food is on the board, not two. -/
theorem rotten_side_effect_counterexample :
    gameC4.food = some ⟨(6, 5), .rotten, false⟩ ∧
    newHead gameC4 = (6, 5) ∧
    gameC4.concurrentFoods = [] ∧
    (moveSnake gameC4).concurrentFoods.length = 1 ∧
    ∀ x ∈ (moveSnake gameC4).concurrentFoods, x.type = .golden := by
  refine ⟨rfl, by decide, rfl, by decide, by decide⟩

/-- C4 (amended): consuming a Rotten primary food leaves the speed and
the eaten counter untouched, respawns the primary food via the regular
policy, and appends at most one concurrent Golden food plus — only when
the replacement primary rolls Rotten — at most one concurrent Normal
food; it does not always leave two concurrent foods on the board. -/
theorem eatFood_rotten_side_effects (g : Game) (pos : Cell) (mv : Bool)
    (hf : g.food = some ⟨pos, .rotten, mv⟩) :
    (eatFood g).speed = g.speed ∧
    (eatFood g).foodEaten = g.foodEaten ∧
    ∃ appN appG,
      (eatFood g).concurrentFoods = g.concurrentFoods ++ (appN ++ appG) ∧
      (appN = [] ∨ ∃ x, appN = [x] ∧ x.type = .normal ∧
        ∃ f', (eatFood g).food = some f' ∧ f'.type = .rotten) ∧
      (appG = [] ∨ ∃ x, appG = [x] ∧ x.type = .golden) := by
  obtain ⟨fd, appN, appG, r, heq, _, hshN, hshG⟩ := eatFood_rotten_spec g pos mv hf
  rw [heq]
  refine ⟨rfl, rfl, appN, appG, rfl, ?_, hshG⟩
  rcases hshN with h | ⟨x, hx, hty, f', hfd, hfty⟩
  · exact Or.inl h
  · exact Or.inr ⟨x, hx, hty, f', hfd, hfty⟩

/-- Witness for C4's amended statement, at the Rotten-eating state
`gameC4`. -/
theorem eatFood_rotten_side_effects_witness :
    (eatFood gameC4).speed = gameC4.speed ∧
    (eatFood gameC4).foodEaten = gameC4.foodEaten ∧
    ∃ appN appG,
      (eatFood gameC4).concurrentFoods = gameC4.concurrentFoods ++ (appN ++ appG) ∧
      (appN = [] ∨ ∃ x, appN = [x] ∧ x.type = .normal ∧
        ∃ f', (eatFood gameC4).food = some f' ∧ f'.type = .rotten) ∧
      (appG = [] ∨ ∃ x, appG = [x] ∧ x.type = .golden) :=
  eatFood_rotten_side_effects gameC4 (6, 5) false rfl

/-- Running state whose random stream commits the obstacle `(7, 7)`. -/
def gameC1 : Game :=
  { snake := [(5, 5)], direction := (1, 0), nextDirection := (1, 0)
    score := 0, foodEaten := 3, tickCount := 12, gameOver := false
    paused := false, speed := 4, food := some ⟨(6, 5), .normal, false⟩
    obstacles := [], concurrentFoods := [], waitingForInitials := false
    playerInitials := "", leaderboard := [], rand := ⟨[], [(7, 7)]⟩ }

/-- C1: whenever `spawn_obstacle` commits a new obstacle `p`, the primary
food (when one is active) is reachable from the snake's head by a
4-connected in-bounds path that avoids all snake cells, all previously
committed obstacles and `p` itself — the BFS pre-check
`_is_food_accessible` is sound; with no active food the check passes
trivially and the obstacle may be committed. -/
theorem obstacle_commit_keeps_food_reachable (g : Game) (p : Cell)
    (hp : p ∈ (spawnObstacle g).obstacles) (hnew : p ∉ g.obstacles) :
    ∀ f, g.food = some f →
      Reach (blockedWith g p) g.snake.headI f.pos := by
  rcases spawnObstacle_spec g with ⟨r, h⟩ | ⟨q, r, _, hacc, h⟩
  · rw [h] at hp
    exact absurd hp hnew
  · rw [h] at hp
    have hpq : p = q := by
      rcases List.mem_append.mp hp with h' | h'
      · exact absurd h' hnew
      · simpa using h'
    subst hpq
    exact foodAccessible_sound g p hacc

/-- Witness for C1: committing the obstacle `(7, 7)` at `gameC1` leaves
the food `(6, 5)` reachable from the head `(5, 5)`. -/
theorem obstacle_commit_witness :
    Reach (blockedWith gameC1 (7, 7)) gameC1.snake.headI (6, 5) :=
  obstacle_commit_keeps_food_reachable gameC1 (7, 7) (by decide) (by decide)
    ⟨(6, 5), .normal, false⟩ rfl

/-! ## Speed preservation across every session operation (for C10) -/

theorem spawnFood_speed (g : Game) : (spawnFood g).speed = g.speed := by
  obtain ⟨fd, app, r, heq, _, _, _⟩ := spawnFood_spec g
  rw [heq]

theorem resetGame_speed (g : Game) : (resetGame g).speed = 4 := by
  show (spawnFood
    { snake := [(gridSize / 2, gridSize / 2)], direction := (1, 0)
      nextDirection := (1, 0), score := 0, foodEaten := 0, tickCount := 0
      gameOver := false, paused := false, speed := 4, food := none
      obstacles := [], concurrentFoods := [], waitingForInitials := false
      playerInitials := "", leaderboard := g.leaderboard,
      rand := g.rand }).speed = 4
  rw [spawnFood_speed]

theorem updateFood_speed (g : Game) (order : List Cell) :
    (updateFood g order).speed = g.speed := by
  unfold updateFood
  rcases hgf : g.food with _ | f
  · rfl
  · show (if f.isMoving && g.tickCount % 6 = 0 then _ else g : Game).speed = _
    split
    · split <;> rfl
    · rfl

theorem pressSpace_speed (g : Game) : (pressSpace g).speed = g.speed := by
  unfold pressSpace
  split <;> rfl

theorem pressP_speed (g : Game) : (pressP g).speed = g.speed := by
  unfold pressP
  split
  · rfl
  · split
    · split <;> rfl
    · rfl

theorem pressL_speed (g : Game) : (pressL g).speed = g.speed := by
  unfold pressL
  split <;> rfl

theorem pressBackspace_speed (g : Game) :
    (pressBackspace g).speed = g.speed := by
  unfold pressBackspace
  split <;> rfl

theorem pressLetter_speed (g : Game) (c : Char) :
    (pressLetter g c).speed = g.speed := by
  unfold pressLetter
  split
  · split <;> rfl
  · rfl

theorem pressDir_speed (g : Game) (d : Cell) :
    (pressDir g d).speed = g.speed := by
  unfold pressDir
  split
  · split <;> rfl
  · rfl

theorem gameOverCheck_speed (g : Game) :
    (gameOverCheck g).speed = g.speed := by
  unfold gameOverCheck
  split
  · split <;> rfl
  · rfl

theorem pressR_speed (g : Game) :
    (pressR g).speed = g.speed ∨ (pressR g).speed = 4 := by
  unfold pressR
  split
  · exact Or.inr (resetGame_speed g)
  · split
    · split <;> exact Or.inl rfl
    · exact Or.inl rfl

theorem pressReturn_speed (g : Game) :
    (pressReturn g).speed = g.speed ∨ (pressReturn g).speed = 4 := by
  unfold pressReturn
  split
  · exact Or.inr (resetGame_speed _)
  · exact Or.inl rfl

theorem eatFood_speed_cases (g : Game) :
    (eatFood g).speed = g.speed ∨
      (4 ≤ (eatFood g).speed ∧ (eatFood g).speed ≤ 15) := by
  rcases hgf : g.food with _ | ⟨pos, ty, mv⟩
  · have h : eatFood g = g := by
      unfold eatFood
      rw [hgf]
    rw [h]
    exact Or.inl rfl
  · cases ty with
    | rotten =>
      obtain ⟨fd, appN, appG, r, heq, _, _, _⟩ :=
        eatFood_rotten_spec g pos mv hgf
      rw [heq]
      exact Or.inl rfl
    | normal =>
      obtain ⟨fd, app, ob, r, heq, _, _, _⟩ :=
        eatFood_ng_spec g pos .normal mv hgf (Or.inl rfl)
      rw [heq]
      exact Or.inr (newSpeed_bounds (g.foodEaten + 1))
    | golden =>
      obtain ⟨fd, app, ob, r, heq, _, _, _⟩ :=
        eatFood_ng_spec g pos .golden mv hgf (Or.inr rfl)
      rw [heq]
      exact Or.inr (newSpeed_bounds (g.foodEaten + 1))

theorem eatLoop_speed (g : Game) (nh : Cell) :
    ∀ l : List Food,
      (eatLoop g nh l).2.1.speed = g.speed ∨
        (4 ≤ (eatLoop g nh l).2.1.speed ∧ (eatLoop g nh l).2.1.speed ≤ 15) := by
  intro l
  induction l with
  | nil => exact Or.inl rfl
  | cons f fs ih =>
    have hstep : eatLoop g nh (f :: fs) =
        if f.pos = nh then (fs, eatConcurrentFood g f, true)
        else (f :: (eatLoop g nh fs).1, (eatLoop g nh fs).2.1,
          (eatLoop g nh fs).2.2) := rfl
    rw [hstep]
    by_cases hc : f.pos = nh
    · rw [if_pos hc]
      obtain ⟨ob, r, heq, _⟩ := eatConcurrentFood_spec g f
      show (eatConcurrentFood g f).speed = _ ∨ _
      rw [heq]
      exact Or.inr (newSpeed_bounds (g.foodEaten + 1))
    · rw [if_neg hc]
      exact ih

theorem moveSnakeCore_speed (g0 : Game) (nh : Cell) :
    (moveSnakeCore g0 nh).speed = g0.speed ∨
      (4 ≤ (moveSnakeCore g0 nh).speed ∧ (moveSnakeCore g0 nh).speed ≤ 15) := by
  cases hm : mainHit { g0 with snake := nh :: g0.snake } nh with
  | true =>
    rw [moveSnakeCore_hit _ _ hm]
    rcases eatLoop_speed (eatFood { g0 with snake := nh :: g0.snake }) nh
        ((eatFood { g0 with snake := nh :: g0.snake }).concurrentFoods)
      with h | h
    · rcases eatFood_speed_cases { g0 with snake := nh :: g0.snake } with h2 | h2
      · exact Or.inl (h.trans h2)
      · exact Or.inr (h ▸ h2)
    · exact Or.inr h
  | false =>
    rw [moveSnakeCore_nohit _ _ hm]
    split
    · exact eatLoop_speed { g0 with snake := nh :: g0.snake } nh
        g0.concurrentFoods
    · exact eatLoop_speed { g0 with snake := nh :: g0.snake } nh
        g0.concurrentFoods

theorem moveSnake_speed (g : Game) :
    (moveSnake g).speed = g.speed ∨
      (4 ≤ (moveSnake g).speed ∧ (moveSnake g).speed ≤ 15) := by
  rw [moveSnake_eq]
  split
  · exact Or.inl rfl
  · split
    · exact Or.inl rfl
    · split
      · exact Or.inl rfl
      · split
        · exact Or.inl rfl
        · exact moveSnakeCore_speed { g with direction := g.nextDirection }
            (newHead g)

/-- Every observable session transition keeps the speed, resets it to
`speed_base = 4`, or recomputes it within `[4, 15]`. -/
theorem step_speed {g g' : Game} (h : Step g g') :
    g'.speed = g.speed ∨ g'.speed = 4 ∨
      (4 ≤ g'.speed ∧ g'.speed ≤ 15) := by
  cases h with
  | move =>
    rcases moveSnake_speed g with h | h
    · exact Or.inl h
    · exact Or.inr (Or.inr h)
  | food order => exact Or.inl (updateFood_speed g order)
  | tick => exact Or.inl rfl
  | space => exact Or.inl (pressSpace_speed g)
  | pkey => exact Or.inl (pressP_speed g)
  | rkey =>
    rcases pressR_speed g with h | h
    · exact Or.inl h
    · exact Or.inr (Or.inl h)
  | lkey => exact Or.inl (pressL_speed g)
  | ret =>
    rcases pressReturn_speed g with h | h
    · exact Or.inl h
    · exact Or.inr (Or.inl h)
  | back => exact Or.inl (pressBackspace_speed g)
  | letter c => exact Or.inl (pressLetter_speed g c)
  | dir d => exact Or.inl (pressDir_speed g d)
  | qualify => exact Or.inl (gameOverCheck_speed g)
  | refill r => exact Or.inl rfl

/-- C10: in every reachable session state the speed lies between
`speed_base = 4` and `speed_max = 15` inclusive: reset initialises it to
the base, and every recomputation adds a non-negative increase to the
base and caps the result at the maximum. -/
theorem speed_bounds_invariant :
    ∀ g : Game, Reachable g → 4 ≤ g.speed ∧ g.speed ≤ 15 := by
  intro g h
  induction h with
  | init lb r =>
    rw [show (initGame lb r).speed = 4 from resetGame_speed _]
    exact ⟨le_refl 4, by norm_num⟩
  | step hr hs ih =>
    rcases step_speed hs with h | h | h
    · rw [h]
      exact ih
    · rw [h]
      exact ⟨le_refl 4, by norm_num⟩
    · exact h

/-- Witness for C10, at a fresh session. -/
theorem speed_bounds_invariant_witness :
    4 ≤ (initGame [] ⟨[], []⟩).speed ∧ (initGame [] ⟨[], []⟩).speed ≤ 15 :=
  speed_bounds_invariant (initGame [] ⟨[], []⟩) (Reachable.init [] ⟨[], []⟩)

end Snake
